import Mathlib

set_option maxHeartbeats 1000000

/-!
Verification development for the bond pricer (`src/bond_pricer.c`).

The C program computes bond valuation metrics (price, Macaulay duration,
modified duration, convexity, DV01) from five scalar inputs.  The core
arithmetic uses only `+`, `-`, `*`, `/` on `double`; we model `double` by
exact rational arithmetic (`ℚ`) and the C `int` fields by `ℤ`.  Division by
zero yields `0` in `ℚ` (rather than IEEE infinity/NaN); the safety theorem
below shows every divisor in the program is nonzero under the documented
preconditions, so this modelling difference is unreachable there.
-/

/-- C struct `BondParams` (src/bond_pricer.c lines 7-13). -/
structure BondParams where
  face_value : ℚ
  coupon_rate : ℚ
  ytm : ℚ
  periods : ℤ
  frequency : ℤ

/-- C struct `BondMetrics` (src/bond_pricer.c lines 15-22). -/
structure BondMetrics where
  price : ℚ
  macaulay_duration : ℚ
  modified_duration : ℚ
  convexity : ℚ
  dv01 : ℚ
  yield_to_maturity : ℚ

/-- `const double c = params->coupon_rate / params->frequency` (line 40). -/
def per_coupon (p : BondParams) : ℚ := p.coupon_rate / (p.frequency : ℚ)

/-- `const double y = params->ytm / params->frequency` (line 41). -/
def per_yield (p : BondParams) : ℚ := p.ytm / (p.frequency : ℚ)

/-- `const int n = params->periods * params->frequency` (line 42), as the
number of iterations of the loop `for (t = 1; t <= n; t++)`; a non-positive
`n` gives zero iterations, matching `Int.toNat`. -/
def num_payments (p : BondParams) : ℕ := (p.periods * p.frequency).toNat

/-- `const double coupon_pmt = fv * c` (line 43). -/
def coupon_pmt (p : BondParams) : ℚ := p.face_value * per_coupon p

/-- `const double discount = 1.0 / (1.0 + y)` (line 51). -/
def discount (p : BondParams) : ℚ := 1 / (1 + per_yield p)

/-- The four mutable locals threaded through the loop (lines 46-54). -/
structure Accum where
  price : ℚ
  weighted_pv : ℚ
  convexity_sum : ℚ
  pv_factor : ℚ

/-- One iteration of the loop body at index `t` (lines 55-64):
`cf = (t == n) ? coupon_pmt + fv : coupon_pmt`, `pv = cf * pv_factor`,
accumulate into `price`, `weighted_pv`, `convexity_sum`, then
`pv_factor *= discount`. -/
def loopStep (cp fv d : ℚ) (n : ℕ) (a : Accum) (t : ℕ) : Accum :=
  let cf : ℚ := if t = n then cp + fv else cp
  let pv : ℚ := cf * a.pv_factor
  { price := a.price + pv
    weighted_pv := a.weighted_pv + t * pv
    convexity_sum := a.convexity_sum + t * (t + 1) * pv
    pv_factor := a.pv_factor * d }

/-- The accumulator state after the full loop of `calculate_bond_metrics`
(lines 46-64), starting from zero accumulators and `pv_factor = discount`. -/
def bond_accum (p : BondParams) : Accum :=
  (List.range' 1 (num_payments p)).foldl
    (loopStep (coupon_pmt p) p.face_value (discount p) (num_payments p))
    ⟨0, 0, 0, discount p⟩

/-- C function `calculate_bond_metrics` (lines 38-73). -/
def calculate_bond_metrics (p : BondParams) : BondMetrics :=
  let a := bond_accum p
  let price := a.price
  let macaulay_duration := a.weighted_pv / (price * (p.frequency : ℚ))
  let modified_duration := macaulay_duration / (1 + p.ytm / (p.frequency : ℚ))
  { price := price
    macaulay_duration := macaulay_duration
    modified_duration := modified_duration
    convexity := a.convexity_sum /
      (price * (p.frequency : ℚ) * (p.frequency : ℚ) *
        (1 + per_yield p) * (1 + per_yield p))
    dv01 := modified_duration * price / 10000
    yield_to_maturity := p.ytm }

/-- The documented preconditions on `BondParams` (spec section 4.1). -/
def ValidParams (p : BondParams) : Prop :=
  0 < p.face_value ∧ 0 ≤ p.coupon_rate ∧ p.coupon_rate ≤ 1 ∧ 0 ≤ p.ytm ∧
    1 ≤ p.periods ∧ p.periods ≤ 100 ∧
    (p.frequency = 1 ∨ p.frequency = 2 ∨ p.frequency = 4 ∨ p.frequency = 12)

instance (p : BondParams) : Decidable (ValidParams p) := by
  unfold ValidParams; infer_instance

/-- The cash flow of period `t` out of `n`: the final payment adds the
redemption of principal (line 56). -/
def cashFlow (cp fv : ℚ) (n t : ℕ) : ℚ := if t = n then cp + fv else cp

/-- Direct-exponentiation price, following the spec words: the period-`t`
cash flow discounted by `discount ^ t`, summed over `t = 1..n`. -/
def price_direct (p : BondParams) : ℚ :=
  ∑ t in Finset.Icc 1 (num_payments p),
    cashFlow (coupon_pmt p) p.face_value (num_payments p) t * discount p ^ t

/-- Direct-exponentiation `weighted_pv`: `t * pv` with `pv = cf * discount^t`. -/
def weighted_pv_direct (p : BondParams) : ℚ :=
  ∑ t in Finset.Icc 1 (num_payments p),
    (t : ℚ) * (cashFlow (coupon_pmt p) p.face_value (num_payments p) t * discount p ^ t)

/-- Direct-exponentiation `convexity_sum`: `t * (t+1) * pv`. -/
def convexity_sum_direct (p : BondParams) : ℚ :=
  ∑ t in Finset.Icc 1 (num_payments p),
    (t : ℚ) * ((t : ℚ) + 1) *
      (cashFlow (coupon_pmt p) p.face_value (num_payments p) t * discount p ^ t)

/-- Abstract result of C numeric parsing (`strtod`/`strtol`) of the five
command-line tokens: `none` models a malformed or out-of-range token
(`errno != 0` or a trailing unparsed character `*endptr != 0`), `some v` a
completely consumed in-range parse. -/
structure RawArgs where
  face_value : Option ℚ
  coupon_rate : Option ℚ
  ytm : Option ℚ
  periods : Option ℤ
  frequency : Option ℤ

/-- The distinct user-facing error conditions of `parse_arguments`
(lines 76-133), one per `fprintf(stderr, ...)` branch. -/
inductive ParseError where
  | usage
  | invalid_face_value
  | invalid_coupon_rate
  | invalid_ytm
  | invalid_periods
  | invalid_frequency

/-- C function `parse_arguments` (lines 76-133): the chain of checks, each
failing branch printing its distinct message and returning 0 (modelled as
`Except.error` with the corresponding `ParseError`). -/
def parse_arguments (argc : ℕ) (args : RawArgs) : Except ParseError BondParams :=
  if argc ≠ 6 then .error .usage else
  match args.face_value with
  | none => .error .invalid_face_value
  | some fv =>
    if fv ≤ 0 then .error .invalid_face_value else
    match args.coupon_rate with
    | none => .error .invalid_coupon_rate
    | some cr =>
      if cr < 0 ∨ 1 < cr then .error .invalid_coupon_rate else
      match args.ytm with
      | none => .error .invalid_ytm
      | some y =>
        if y < 0 then .error .invalid_ytm else
        match args.periods with
        | none => .error .invalid_periods
        | some per =>
          if per ≤ 0 ∨ 100 < per then .error .invalid_periods else
          match args.frequency with
          | none => .error .invalid_frequency
          | some fr =>
            if fr ≠ 1 ∧ fr ≠ 2 ∧ fr ≠ 4 ∧ fr ≠ 12 then .error .invalid_frequency else
            .ok ⟨fv, cr, y, per, fr⟩

/-- C `main` (lines 181-197): the process exit code (0 = `EXIT_SUCCESS`,
1 = `EXIT_FAILURE`) paired with the metrics that were computed (`none` when
validation failed, i.e. the calculator was never invoked). -/
def main_run (argc : ℕ) (args : RawArgs) : ℕ × Option BondMetrics :=
  match parse_arguments argc args with
  | .error _ => (1, none)
  | .ok p => (0, some (calculate_bond_metrics p))

/-- Successful validation of the command line: exactly six `argv` entries and
all five fields parse and lie in range. -/
def ArgsValid (argc : ℕ) (args : RawArgs) : Prop :=
  argc = 6 ∧
  (∃ v, args.face_value = some v ∧ 0 < v) ∧
  (∃ v, args.coupon_rate = some v ∧ 0 ≤ v ∧ v ≤ 1) ∧
  (∃ v, args.ytm = some v ∧ 0 ≤ v) ∧
  (∃ v, args.periods = some v ∧ 0 < v ∧ v ≤ 100) ∧
  (∃ v, args.frequency = some v ∧ (v = 1 ∨ v = 2 ∨ v = 4 ∨ v = 12))

/-! ### The loop computes the direct-exponentiation sums -/

/-- After `m` iterations (indices `1..m`) the accumulators hold the running
direct-exponentiation sums and `pv_factor = discount ^ (m+1)`. -/
lemma foldl_loopStep (cp fv d : ℚ) (n : ℕ) (m : ℕ) :
    (List.range' 1 m).foldl (loopStep cp fv d n) ⟨0, 0, 0, d⟩ =
      ⟨∑ t in Finset.Icc 1 m, cashFlow cp fv n t * d ^ t,
       ∑ t in Finset.Icc 1 m, (t : ℚ) * (cashFlow cp fv n t * d ^ t),
       ∑ t in Finset.Icc 1 m, (t : ℚ) * ((t : ℚ) + 1) * (cashFlow cp fv n t * d ^ t),
       d ^ (m + 1)⟩ := by
  induction m with
  | zero => simp
  | succ m ih =>
      rw [List.range'_concat, List.foldl_append, ih]
      have h1m : 1 + 1 * m = m + 1 := by omega
      rw [h1m]
      simp only [List.foldl_cons, List.foldl_nil, loopStep, cashFlow, Accum.mk.injEq]
      have hab : 1 ≤ m + 1 := Nat.succ_le_succ m.zero_le
      refine ⟨?_, ?_, ?_, ?_⟩
      · rw [Finset.sum_Icc_succ_top hab]
      · rw [Finset.sum_Icc_succ_top hab]
      · rw [Finset.sum_Icc_succ_top hab]
      · ring

/-- The loop accumulator `price` equals the direct sum. -/
lemma bond_accum_price (p : BondParams) : (bond_accum p).price = price_direct p := by
  rw [bond_accum, foldl_loopStep]; rfl

/-- The loop accumulator `weighted_pv` equals the direct sum. -/
lemma bond_accum_weighted (p : BondParams) :
    (bond_accum p).weighted_pv = weighted_pv_direct p := by
  rw [bond_accum, foldl_loopStep]; rfl

/-- The loop accumulator `convexity_sum` equals the direct sum. -/
lemma bond_accum_convexity (p : BondParams) :
    (bond_accum p).convexity_sum = convexity_sum_direct p := by
  rw [bond_accum, foldl_loopStep]; rfl

/-- The output `price` field, in direct-sum form. -/
lemma metrics_price (p : BondParams) :
    (calculate_bond_metrics p).price = price_direct p := by
  rw [calculate_bond_metrics, bond_accum_price]

/-- The output `macaulay_duration` field, in direct-sum form. -/
lemma metrics_mac (p : BondParams) :
    (calculate_bond_metrics p).macaulay_duration =
      weighted_pv_direct p / (price_direct p * (p.frequency : ℚ)) := by
  rw [calculate_bond_metrics, bond_accum_price, bond_accum_weighted]

/-- The output `modified_duration` field, in direct-sum form. -/
lemma metrics_mod (p : BondParams) :
    (calculate_bond_metrics p).modified_duration =
      weighted_pv_direct p / (price_direct p * (p.frequency : ℚ)) /
        (1 + p.ytm / (p.frequency : ℚ)) := by
  rw [calculate_bond_metrics, bond_accum_price, bond_accum_weighted]

/-- The output `convexity` field, in direct-sum form. -/
lemma metrics_conv (p : BondParams) :
    (calculate_bond_metrics p).convexity =
      convexity_sum_direct p /
        (price_direct p * (p.frequency : ℚ) * (p.frequency : ℚ) *
          (1 + per_yield p) * (1 + per_yield p)) := by
  rw [calculate_bond_metrics, bond_accum_price, bond_accum_convexity]

/-- The output `dv01` field, in direct-sum form. -/
lemma metrics_dv01 (p : BondParams) :
    (calculate_bond_metrics p).dv01 =
      weighted_pv_direct p / (price_direct p * (p.frequency : ℚ)) /
        (1 + p.ytm / (p.frequency : ℚ)) * price_direct p / 10000 := by
  rw [calculate_bond_metrics, bond_accum_price, bond_accum_weighted]

/-! ### Basic consequences of the preconditions -/

/-- A valid frequency is positive (as an integer). -/
lemma freq_pos_int (p : BondParams) (h : ValidParams p) : 0 < p.frequency := by
  rcases h.2.2.2.2.2.2 with h1 | h1 | h1 | h1 <;> rw [h1] <;> norm_num

/-- A valid frequency is positive (as a rational). -/
lemma freq_pos (p : BondParams) (h : ValidParams p) : 0 < (p.frequency : ℚ) := by
  exact_mod_cast freq_pos_int p h

/-- The per-period yield is nonnegative. -/
lemma per_yield_nonneg (p : BondParams) (h : ValidParams p) : 0 ≤ per_yield p :=
  div_nonneg h.2.2.2.1 (freq_pos p h).le

/-- `1 + y` is positive. -/
lemma one_add_y_pos (p : BondParams) (h : ValidParams p) : 0 < 1 + per_yield p := by
  linarith [per_yield_nonneg p h]

/-- The discount factor is positive. -/
lemma discount_pos (p : BondParams) (h : ValidParams p) : 0 < discount p :=
  div_pos one_pos (one_add_y_pos p h)

/-- There is at least one payment. -/
lemma num_payments_pos (p : BondParams) (h : ValidParams p) : 1 ≤ num_payments p := by
  have h1 : 1 ≤ p.periods := h.2.2.2.2.1
  have h2 : 0 < p.frequency := freq_pos_int p h
  have h3 : 1 ≤ p.periods * p.frequency := by nlinarith
  unfold num_payments
  omega

/-- `n` casts to `periods * frequency` in `ℚ`. -/
lemma num_payments_cast (p : BondParams) (h : ValidParams p) :
    (num_payments p : ℚ) = (p.periods : ℚ) * (p.frequency : ℚ) := by
  have h1 : 1 ≤ p.periods := h.2.2.2.2.1
  have h2 : 0 < p.frequency := freq_pos_int p h
  have h3 : 0 ≤ p.periods * p.frequency := by nlinarith
  have h4 : ((p.periods * p.frequency).toNat : ℤ) = p.periods * p.frequency :=
    Int.toNat_of_nonneg h3
  unfold num_payments
  exact_mod_cast congrArg (Int.cast : ℤ → ℚ) h4

/-- The coupon payment is nonnegative. -/
lemma coupon_pmt_nonneg (p : BondParams) (h : ValidParams p) : 0 ≤ coupon_pmt p :=
  mul_nonneg h.1.le (div_nonneg h.2.1 (freq_pos p h).le)

/-- Every cash flow is nonnegative. -/
lemma cashFlow_nonneg (p : BondParams) (h : ValidParams p) (t : ℕ) :
    0 ≤ cashFlow (coupon_pmt p) p.face_value (num_payments p) t := by
  unfold cashFlow
  split
  · linarith [coupon_pmt_nonneg p h, h.1]
  · exact coupon_pmt_nonneg p h

/-- The final cash flow (coupon plus principal) is strictly positive. -/
lemma cashFlow_last_pos (p : BondParams) (h : ValidParams p) :
    0 < cashFlow (coupon_pmt p) p.face_value (num_payments p) (num_payments p) := by
  unfold cashFlow
  rw [if_pos rfl]
  linarith [coupon_pmt_nonneg p h, h.1]

/-- The final index belongs to the summation range. -/
lemma last_mem_Icc (p : BondParams) (h : ValidParams p) :
    num_payments p ∈ Finset.Icc 1 (num_payments p) :=
  Finset.mem_Icc.mpr ⟨num_payments_pos p h, le_refl _⟩

/-- The accumulated price is strictly positive. -/
lemma price_direct_pos (p : BondParams) (h : ValidParams p) : 0 < price_direct p := by
  unfold price_direct
  refine Finset.sum_pos' (fun t _ => ?_) ⟨num_payments p, last_mem_Icc p h, ?_⟩
  · exact mul_nonneg (cashFlow_nonneg p h t) (pow_nonneg (discount_pos p h).le t)
  · exact mul_pos (cashFlow_last_pos p h) (pow_pos (discount_pos p h) _)

/-- The weighted present-value sum is strictly positive. -/
lemma weighted_pv_direct_pos (p : BondParams) (h : ValidParams p) :
    0 < weighted_pv_direct p := by
  unfold weighted_pv_direct
  refine Finset.sum_pos' (fun t _ => ?_) ⟨num_payments p, last_mem_Icc p h, ?_⟩
  · exact mul_nonneg (Nat.cast_nonneg t)
      (mul_nonneg (cashFlow_nonneg p h t) (pow_nonneg (discount_pos p h).le t))
  · refine mul_pos ?_ (mul_pos (cashFlow_last_pos p h) (pow_pos (discount_pos p h) _))
    exact_mod_cast Nat.lt_of_lt_of_le Nat.zero_lt_one (num_payments_pos p h)

/-- The convexity sum is strictly positive. -/
lemma convexity_sum_direct_pos (p : BondParams) (h : ValidParams p) :
    0 < convexity_sum_direct p := by
  unfold convexity_sum_direct
  refine Finset.sum_pos' (fun t _ => ?_) ⟨num_payments p, last_mem_Icc p h, ?_⟩
  · refine mul_nonneg (mul_nonneg (Nat.cast_nonneg t) ?_)
      (mul_nonneg (cashFlow_nonneg p h t) (pow_nonneg (discount_pos p h).le t))
    positivity
  · refine mul_pos (mul_pos ?_ ?_)
      (mul_pos (cashFlow_last_pos p h) (pow_pos (discount_pos p h) _))
    · exact_mod_cast Nat.lt_of_lt_of_le Nat.zero_lt_one (num_payments_pos p h)
    · positivity

/-! ### Closed-form algebra: geometric series and the par identity -/

/-- Geometric-series identity for the discount factor: for `y > 0`,
`y * ∑_{t=1}^{n} (1/(1+y))^t = 1 - (1/(1+y))^n`. -/
lemma geom_sum_discount (y : ℚ) (hy : 0 < y) (n : ℕ) :
    y * ∑ t in Finset.Icc 1 n, (1 / (1 + y)) ^ t = 1 - (1 / (1 + y)) ^ n := by
  have hne : (1 : ℚ) + y ≠ 0 := by linarith
  induction n with
  | zero => simp
  | succ n ih =>
      rw [Finset.sum_Icc_succ_top (Nat.succ_le_succ n.zero_le), mul_add, ih, pow_succ]
      field_simp
      ring

/-- Splitting the direct price into coupon annuity plus discounted principal. -/
lemma price_direct_split (p : BondParams) (hn : 1 ≤ num_payments p) :
    price_direct p =
      coupon_pmt p * (∑ t in Finset.Icc 1 (num_payments p), discount p ^ t) +
        p.face_value * discount p ^ num_payments p := by
  unfold price_direct
  have hsummand : ∀ t ∈ Finset.Icc 1 (num_payments p),
      cashFlow (coupon_pmt p) p.face_value (num_payments p) t * discount p ^ t =
        coupon_pmt p * discount p ^ t +
          (if t = num_payments p then p.face_value * discount p ^ t else 0) := by
    intro t _
    unfold cashFlow
    by_cases ht : t = num_payments p
    · rw [if_pos ht, if_pos ht]; ring
    · rw [if_neg ht, if_neg ht]; ring
  rw [Finset.sum_congr rfl hsummand, Finset.sum_add_distrib, Finset.sum_ite_eq',
    if_pos (Finset.mem_Icc.mpr ⟨hn, le_refl _⟩), ← Finset.mul_sum]

/-- The par identity: the discounted value of an annuity paying the yield on
the face value, plus the discounted principal, is exactly the face value. -/
lemma par_identity (p : BondParams) (h : ValidParams p) :
    p.face_value * per_yield p *
        (∑ t in Finset.Icc 1 (num_payments p), discount p ^ t) +
      p.face_value * discount p ^ num_payments p = p.face_value := by
  rcases eq_or_lt_of_le (per_yield_nonneg p h) with h0 | hpos
  · rw [discount, ← h0]
    norm_num
  · have hgeom := geom_sum_discount (per_yield p) hpos (num_payments p)
    rw [discount]
    calc p.face_value * per_yield p * (∑ t in Finset.Icc 1 (num_payments p),
            (1 / (1 + per_yield p)) ^ t) +
          p.face_value * (1 / (1 + per_yield p)) ^ num_payments p
        = p.face_value * (per_yield p * ∑ t in Finset.Icc 1 (num_payments p),
            (1 / (1 + per_yield p)) ^ t) +
          p.face_value * (1 / (1 + per_yield p)) ^ num_payments p := by ring
      _ = p.face_value * (1 - (1 / (1 + per_yield p)) ^ num_payments p) +
          p.face_value * (1 / (1 + per_yield p)) ^ num_payments p := by rw [hgeom]
      _ = p.face_value := by ring

/-- The deviation of the price from par is proportional to the spread between
the coupon rate and the yield. -/
lemma price_sub_par (p : BondParams) (h : ValidParams p) :
    price_direct p - p.face_value =
      p.face_value * ((p.coupon_rate - p.ytm) / (p.frequency : ℚ)) *
        ∑ t in Finset.Icc 1 (num_payments p), discount p ^ t := by
  rw [price_direct_split p (num_payments_pos p h)]
  have hpar := par_identity p h
  have hcp : coupon_pmt p = p.face_value * (p.coupon_rate / (p.frequency : ℚ)) := rfl
  have hy : per_yield p = p.ytm / (p.frequency : ℚ) := rfl
  rw [hcp]
  rw [hy] at hpar
  have hfreq : (p.frequency : ℚ) ≠ 0 := (freq_pos p h).ne'
  field_simp at hpar ⊢
  linarith [hpar]

/-- The annuity factor `∑_{t=1}^{n} discount^t` is strictly positive. -/
lemma annuity_pos (p : BondParams) (h : ValidParams p) :
    0 < ∑ t in Finset.Icc 1 (num_payments p), discount p ^ t := by
  refine Finset.sum_pos (fun t _ => pow_pos (discount_pos p h) t) ?_
  exact ⟨num_payments p, last_mem_Icc p h⟩

/-! ### Helper facts for the duration claims -/

/-- The weighted present-value sum is bounded by `n` times the price. -/
lemma weighted_pv_le (p : BondParams) (h : ValidParams p) :
    weighted_pv_direct p ≤ (num_payments p : ℚ) * price_direct p := by
  unfold weighted_pv_direct price_direct
  rw [Finset.mul_sum]
  refine Finset.sum_le_sum fun t ht => ?_
  have htn : (t : ℚ) ≤ (num_payments p : ℚ) := by
    exact_mod_cast (Finset.mem_Icc.mp ht).2
  exact mul_le_mul_of_nonneg_right htn
    (mul_nonneg (cashFlow_nonneg p h t) (pow_nonneg (discount_pos p h).le t))

/-- With a zero coupon payment, the direct price is the discounted principal. -/
lemma price_direct_zero_coupon (p : BondParams) (h : ValidParams p)
    (hcp : coupon_pmt p = 0) :
    price_direct p = p.face_value * discount p ^ num_payments p := by
  rw [price_direct_split p (num_payments_pos p h), hcp]
  ring

/-- With a zero coupon payment, the weighted sum is `n` times the price. -/
lemma weighted_pv_zero_coupon (p : BondParams) (h : ValidParams p)
    (hcp : coupon_pmt p = 0) :
    weighted_pv_direct p = (num_payments p : ℚ) * price_direct p := by
  unfold weighted_pv_direct
  have hsummand : ∀ t ∈ Finset.Icc 1 (num_payments p),
      (t : ℚ) * (cashFlow (coupon_pmt p) p.face_value (num_payments p) t * discount p ^ t) =
        (if t = num_payments p then
          (num_payments p : ℚ) * (p.face_value * discount p ^ t) else 0) := by
    intro t _
    unfold cashFlow
    by_cases ht : t = num_payments p
    · rw [if_pos ht, if_pos ht, ht, hcp]; ring
    · rw [if_neg ht, if_neg ht, hcp]; ring
  rw [Finset.sum_congr rfl hsummand, Finset.sum_ite_eq',
    if_pos (last_mem_Icc p h), price_direct_zero_coupon p h hcp]

/-! ### The claims -/

/-- Claim C1: for valid parameters with `coupon_rate = ytm`, the computed price
equals the face value exactly (in the exact-rational model of `double`). -/
theorem par_bond_price (p : BondParams) (h : ValidParams p)
    (hcy : p.coupon_rate = p.ytm) :
    (calculate_bond_metrics p).price = p.face_value := by
  rw [metrics_price, price_direct_split p (num_payments_pos p h)]
  have hcp : coupon_pmt p = p.face_value * per_yield p := by
    unfold coupon_pmt per_coupon per_yield
    rw [hcy]
  rw [hcp]
  exact par_identity p h

/-- C1 witness: a concrete valid par bond prices exactly at face value. -/
theorem par_bond_price_witness :
    ValidParams ⟨1000, mkRat 1 20, mkRat 1 20, 10, 1⟩ ∧
      (⟨1000, mkRat 1 20, mkRat 1 20, 10, 1⟩ : BondParams).coupon_rate =
        (⟨1000, mkRat 1 20, mkRat 1 20, 10, 1⟩ : BondParams).ytm ∧
      (calculate_bond_metrics ⟨1000, mkRat 1 20, mkRat 1 20, 10, 1⟩).price = 1000 :=
  ⟨by decide, rfl, par_bond_price ⟨1000, mkRat 1 20, mkRat 1 20, 10, 1⟩ (by decide) rfl⟩

/-- Claim C2: for valid parameters, a coupon rate above the yield prices the bond
above par, and a coupon rate below the yield prices it below par. -/
theorem premium_discount (p : BondParams) (h : ValidParams p) :
    (p.ytm < p.coupon_rate → p.face_value < (calculate_bond_metrics p).price) ∧
      (p.coupon_rate < p.ytm → (calculate_bond_metrics p).price < p.face_value) := by
  rw [metrics_price]
  have hsub := price_sub_par p h
  have hS := annuity_pos p h
  have hfv := h.1
  have hfq := freq_pos p h
  constructor
  · intro hlt
    have hpos : 0 < p.face_value * ((p.coupon_rate - p.ytm) / (p.frequency : ℚ)) *
        ∑ t in Finset.Icc 1 (num_payments p), discount p ^ t :=
      mul_pos (mul_pos hfv (div_pos (by linarith) hfq)) hS
    linarith
  · intro hlt
    have hneg : p.face_value * ((p.coupon_rate - p.ytm) / (p.frequency : ℚ)) *
        ∑ t in Finset.Icc 1 (num_payments p), discount p ^ t < 0 := by
      refine mul_neg_of_neg_of_pos ?_ hS
      exact mul_neg_of_pos_of_neg hfv (div_neg_of_neg_of_pos (by linarith) hfq)
    linarith

/-- C2 witness: concrete premium and discount bonds. -/
theorem premium_discount_witness :
    ValidParams ⟨1000, mkRat 6 100, mkRat 4 100, 2, 1⟩ ∧
      (1000 : ℚ) < (calculate_bond_metrics ⟨1000, mkRat 6 100, mkRat 4 100, 2, 1⟩).price :=
  ⟨by decide,
    (premium_discount ⟨1000, mkRat 6 100, mkRat 4 100, 2, 1⟩ (by decide)).1 (by decide)⟩

/-- Claim C3: with face value, coupon rate, periods and frequency fixed, a strictly
larger yield gives a strictly smaller computed price. -/
theorem price_strict_anti_ytm (p q : BondParams) (hp : ValidParams p)
    (hq : ValidParams q) (hfv : p.face_value = q.face_value)
    (hcr : p.coupon_rate = q.coupon_rate) (hper : p.periods = q.periods)
    (hfreq : p.frequency = q.frequency) (hy : p.ytm < q.ytm) :
    (calculate_bond_metrics q).price < (calculate_bond_metrics p).price := by
  rw [metrics_price, metrics_price]
  have hn : num_payments q = num_payments p := by
    unfold num_payments; rw [hper, hfreq]
  have hcp : coupon_pmt q = coupon_pmt p := by
    unfold coupon_pmt per_coupon; rw [hfv, hcr, hfreq]
  have hyy : per_yield p < per_yield q := by
    unfold per_yield
    rw [hfreq]
    exact (div_lt_div_iff_of_pos_right (freq_pos q hq)).mpr hy
  have hdq : 0 < discount q := discount_pos q hq
  have hdlt : discount q < discount p :=
    one_div_lt_one_div_of_lt (one_add_y_pos p hp) (by linarith)
  unfold price_direct
  rw [hn, hcp, ← hfv]
  refine Finset.sum_lt_sum (fun t ht => ?_) ⟨num_payments p, last_mem_Icc p hp, ?_⟩
  · exact mul_le_mul_of_nonneg_left (pow_le_pow_left₀ hdq.le hdlt.le t)
      (cashFlow_nonneg p hp t)
  · refine mul_lt_mul_of_pos_left ?_ (cashFlow_last_pos p hp)
    exact pow_lt_pow_left₀ hdlt hdq.le
      (Nat.one_le_iff_ne_zero.mp (num_payments_pos p hp))

/-- C3 witness: raising the yield from 4% to 6% on a concrete bond lowers the
price. -/
theorem price_strict_anti_ytm_witness :
    ValidParams ⟨1000, mkRat 5 100, mkRat 4 100, 2, 1⟩ ∧
      ValidParams ⟨1000, mkRat 5 100, mkRat 6 100, 2, 1⟩ ∧
      (calculate_bond_metrics ⟨1000, mkRat 5 100, mkRat 6 100, 2, 1⟩).price <
        (calculate_bond_metrics ⟨1000, mkRat 5 100, mkRat 4 100, 2, 1⟩).price :=
  ⟨by decide, by decide,
    price_strict_anti_ytm ⟨1000, mkRat 5 100, mkRat 4 100, 2, 1⟩
      ⟨1000, mkRat 5 100, mkRat 6 100, 2, 1⟩
      (by decide) (by decide) rfl rfl rfl rfl (by decide)⟩

/-- Claim C4: for valid parameters the Macaulay duration never exceeds the number
of years to maturity, and is strictly positive when the coupon is positive. -/
theorem macaulay_duration_bounds (p : BondParams) (h : ValidParams p) :
    (calculate_bond_metrics p).macaulay_duration ≤ (p.periods : ℚ) ∧
      (0 < p.coupon_rate → 0 < (calculate_bond_metrics p).macaulay_duration) := by
  rw [metrics_mac]
  have hpr := price_direct_pos p h
  have hfq := freq_pos p h
  have hden : 0 < price_direct p * (p.frequency : ℚ) := mul_pos hpr hfq
  constructor
  · rw [div_le_iff₀ hden]
    have hw := weighted_pv_le p h
    have hn : (num_payments p : ℚ) = (p.periods : ℚ) * (p.frequency : ℚ) :=
      num_payments_cast p h
    calc weighted_pv_direct p ≤ (num_payments p : ℚ) * price_direct p :=
          weighted_pv_le p h
      _ = (p.periods : ℚ) * (price_direct p * (p.frequency : ℚ)) := by rw [hn]; ring
  · intro _
    exact div_pos (weighted_pv_direct_pos p h) hden

/-- C4 witness: the duration bounds at a concrete 5%-coupon bond. -/
theorem macaulay_duration_bounds_witness :
    ValidParams ⟨1000, mkRat 5 100, mkRat 5 100, 2, 1⟩ ∧
      (0 : ℚ) < (⟨1000, mkRat 5 100, mkRat 5 100, 2, 1⟩ : BondParams).coupon_rate ∧
      (calculate_bond_metrics ⟨1000, mkRat 5 100, mkRat 5 100, 2, 1⟩).macaulay_duration ≤ 2 ∧
      0 < (calculate_bond_metrics ⟨1000, mkRat 5 100, mkRat 5 100, 2, 1⟩).macaulay_duration :=
  ⟨by decide, by decide,
    (macaulay_duration_bounds ⟨1000, mkRat 5 100, mkRat 5 100, 2, 1⟩ (by decide)).1,
    (macaulay_duration_bounds ⟨1000, mkRat 5 100, mkRat 5 100, 2, 1⟩ (by decide)).2
      (by decide)⟩

/-- Claim C5: for a valid zero-coupon bond the price is the single discounted
redemption value and the Macaulay duration is exactly the number of years. -/
theorem zero_coupon_metrics (p : BondParams) (h : ValidParams p)
    (hcr : p.coupon_rate = 0) :
    (calculate_bond_metrics p).price =
        p.face_value / (1 + p.ytm / (p.frequency : ℚ)) ^ num_payments p ∧
      (calculate_bond_metrics p).macaulay_duration = (p.periods : ℚ) := by
  have hcp : coupon_pmt p = 0 := by
    unfold coupon_pmt per_coupon
    rw [hcr]
    ring
  have hprice := price_direct_zero_coupon p h hcp
  constructor
  · rw [metrics_price, hprice, discount, per_yield, div_pow, one_pow]
    rw [div_eq_mul_inv, div_eq_mul_inv, one_mul, div_eq_mul_inv]
  · rw [metrics_mac, weighted_pv_zero_coupon p h hcp]
    have hpr := (price_direct_pos p h).ne'
    have hfq := (freq_pos p h).ne'
    have hn : (num_payments p : ℚ) = (p.periods : ℚ) * (p.frequency : ℚ) :=
      num_payments_cast p h
    field_simp
    rw [hn]
    ring

/-- C5 witness: a concrete zero-coupon bond. -/
theorem zero_coupon_metrics_witness :
    ValidParams ⟨1000, 0, 1, 2, 1⟩ ∧
      (⟨1000, 0, 1, 2, 1⟩ : BondParams).coupon_rate = 0 ∧
      (calculate_bond_metrics ⟨1000, 0, 1, 2, 1⟩).price =
        1000 / (1 + (1 : ℚ) / 1) ^ num_payments ⟨1000, 0, 1, 2, 1⟩ ∧
      (calculate_bond_metrics ⟨1000, 0, 1, 2, 1⟩).macaulay_duration = 2 :=
  ⟨by decide, rfl,
    (zero_coupon_metrics ⟨1000, 0, 1, 2, 1⟩ (by decide) rfl).1,
    (zero_coupon_metrics ⟨1000, 0, 1, 2, 1⟩ (by decide) rfl).2⟩

/-- Claim C6: for valid parameters the accumulated price is strictly positive, so
the divisors of the Macaulay-duration, modified-duration and convexity
divisions are all nonzero (all outputs are then ordinary finite rationals in
this exact model). -/
theorem price_pos_divisors_nonzero (p : BondParams) (h : ValidParams p) :
    0 < (bond_accum p).price ∧
      (bond_accum p).price * (p.frequency : ℚ) ≠ 0 ∧
      1 + p.ytm / (p.frequency : ℚ) ≠ 0 ∧
      (bond_accum p).price * (p.frequency : ℚ) * (p.frequency : ℚ) *
          (1 + per_yield p) * (1 + per_yield p) ≠ 0 := by
  rw [bond_accum_price]
  have hpr := price_direct_pos p h
  have hfq := freq_pos p h
  have hy := one_add_y_pos p h
  refine ⟨hpr, (mul_pos hpr hfq).ne', ?_, ?_⟩
  · have : per_yield p = p.ytm / (p.frequency : ℚ) := rfl
    rw [← this]
    exact hy.ne'
  · exact (mul_pos (mul_pos (mul_pos (mul_pos hpr hfq) hfq) hy) hy).ne'

/-- C6 witness: positivity and nonzero divisors at a concrete bond. -/
theorem price_pos_divisors_nonzero_witness :
    ValidParams ⟨500, 1, 1, 1, 2⟩ ∧
      0 < (bond_accum ⟨500, 1, 1, 1, 2⟩).price ∧
      (bond_accum ⟨500, 1, 1, 1, 2⟩).price * ((2 : ℤ) : ℚ) ≠ 0 :=
  ⟨by decide,
    (price_pos_divisors_nonzero ⟨500, 1, 1, 1, 2⟩ (by decide)).1,
    (price_pos_divisors_nonzero ⟨500, 1, 1, 1, 2⟩ (by decide)).2.1⟩

/-- Claim C10: for valid parameters the computed convexity and DV01 are both
strictly positive. -/
theorem convexity_dv01_pos (p : BondParams) (h : ValidParams p) :
    0 < (calculate_bond_metrics p).convexity ∧
      0 < (calculate_bond_metrics p).dv01 := by
  rw [metrics_conv, metrics_dv01]
  have hpr := price_direct_pos p h
  have hfq := freq_pos p h
  have hy := one_add_y_pos p h
  have hyy : (0 : ℚ) < 1 + p.ytm / (p.frequency : ℚ) := one_add_y_pos p h
  constructor
  · exact div_pos (convexity_sum_direct_pos p h)
      (mul_pos (mul_pos (mul_pos (mul_pos hpr hfq) hfq) hy) hy)
  · have hmac : 0 < weighted_pv_direct p / (price_direct p * (p.frequency : ℚ)) :=
      div_pos (weighted_pv_direct_pos p h) (mul_pos hpr hfq)
    have hmod : 0 < weighted_pv_direct p / (price_direct p * (p.frequency : ℚ)) /
        (1 + p.ytm / (p.frequency : ℚ)) := div_pos hmac hyy
    positivity

/-- C10 witness: positivity of convexity and DV01 at a concrete bond. -/
theorem convexity_dv01_pos_witness :
    ValidParams ⟨100, 1, 0, 1, 1⟩ ∧
      0 < (calculate_bond_metrics ⟨100, 1, 0, 1, 1⟩).convexity ∧
      0 < (calculate_bond_metrics ⟨100, 1, 0, 1, 1⟩).dv01 :=
  ⟨by decide,
    (convexity_dv01_pos ⟨100, 1, 0, 1, 1⟩ (by decide)).1,
    (convexity_dv01_pos ⟨100, 1, 0, 1, 1⟩ (by decide)).2⟩

/-- Claim C8: the iterative accumulation (running `pv_factor`, multiplied by
`discount` each pass) produces exactly the same `price`, `weighted_pv` and
`convexity_sum` as discounting the period-`t` cash flow by `discount ^ t`
directly (exact equality in the exact-rational model of `double`). -/
theorem iterative_eq_direct (p : BondParams) (_h : ValidParams p) :
    (bond_accum p).price = price_direct p ∧
      (bond_accum p).weighted_pv = weighted_pv_direct p ∧
      (bond_accum p).convexity_sum = convexity_sum_direct p :=
  ⟨bond_accum_price p, bond_accum_weighted p, bond_accum_convexity p⟩

/-- C8 witness: the equivalence at a concrete bond. -/
theorem iterative_eq_direct_witness :
    ValidParams ⟨1000, mkRat 5 100, mkRat 3 100, 3, 2⟩ ∧
      (bond_accum ⟨1000, mkRat 5 100, mkRat 3 100, 3, 2⟩).price =
        price_direct ⟨1000, mkRat 5 100, mkRat 3 100, 3, 2⟩ :=
  ⟨by decide,
    (iterative_eq_direct ⟨1000, mkRat 5 100, mkRat 3 100, 3, 2⟩ (by decide)).1⟩

/-- Claim C7: the concrete scenario `face_value=1000`, `coupon_rate=0.05`,
`ytm=0.05`, `periods=10`, `frequency=1` yields price exactly 1000, Macaulay
duration within `10^-4` of 8.1078 years and modified duration within `10^-4`
of 7.7217 years. -/
theorem concrete_scenario :
    (calculate_bond_metrics ⟨1000, 5/100, 5/100, 10, 1⟩).price = 1000 ∧
      |(calculate_bond_metrics ⟨1000, 5/100, 5/100, 10, 1⟩).macaulay_duration -
        81078/10000| < 1/10000 ∧
      |(calculate_bond_metrics ⟨1000, 5/100, 5/100, 10, 1⟩).modified_duration -
        77217/10000| < 1/10000 := by
  have hr : List.range' 1 (num_payments ⟨1000, 5/100, 5/100, 10, 1⟩) =
      [1, 2, 3, 4, 5, 6, 7, 8, 9, 10] := rfl
  have hn : num_payments ⟨1000, 5/100, 5/100, 10, 1⟩ = 10 := rfl
  refine ⟨?_, ?_, ?_⟩
  · show (bond_accum ⟨1000, 5/100, 5/100, 10, 1⟩).price = 1000
    rw [bond_accum, hr, hn]
    simp only [List.foldl_cons, List.foldl_nil, loopStep]
    norm_num [coupon_pmt, per_coupon, per_yield, discount]
  · show |(bond_accum ⟨1000, 5/100, 5/100, 10, 1⟩).weighted_pv /
        ((bond_accum ⟨1000, 5/100, 5/100, 10, 1⟩).price * ((1 : ℤ) : ℚ)) -
          81078/10000| < 1/10000
    rw [abs_sub_lt_iff, bond_accum, hr, hn]
    simp only [List.foldl_cons, List.foldl_nil, loopStep]
    norm_num [coupon_pmt, per_coupon, per_yield, discount]
  · show |(bond_accum ⟨1000, 5/100, 5/100, 10, 1⟩).weighted_pv /
        ((bond_accum ⟨1000, 5/100, 5/100, 10, 1⟩).price * ((1 : ℤ) : ℚ)) /
          (1 + (5/100 : ℚ) / ((1 : ℤ) : ℚ)) - 77217/10000| < 1/10000
    rw [abs_sub_lt_iff, bond_accum, hr, hn]
    simp only [List.foldl_cons, List.foldl_nil, loopStep]
    norm_num [coupon_pmt, per_coupon, per_yield, discount]

/-- `parse_arguments` succeeds exactly when there are six `argv` entries and
all five fields parse into their documented ranges. -/
lemma parse_ok_iff (argc : ℕ) (args : RawArgs) :
    (∃ p, parse_arguments argc args = Except.ok p) ↔ ArgsValid argc args := by
  obtain ⟨fv?, cr?, y?, per?, fr?⟩ := args
  unfold parse_arguments ArgsValid
  dsimp only
  by_cases h6 : argc = 6
  swap
  · rw [if_pos h6]
    exact iff_of_false (fun ⟨p, hp⟩ => Except.noConfusion hp) (fun hv => h6 hv.1)
  rw [if_neg (fun hne => hne h6)]
  rcases fv? with _ | fv
  · exact iff_of_false (fun ⟨p, hp⟩ => Except.noConfusion hp)
      (fun hv => by rcases hv.2.1 with ⟨v, hv1, _⟩; exact Option.noConfusion hv1)
  dsimp only
  by_cases hfv : fv ≤ 0
  · rw [if_pos hfv]
    refine iff_of_false (fun ⟨p, hp⟩ => Except.noConfusion hp) (fun hv => ?_)
    rcases hv.2.1 with ⟨v, hv1, hv2⟩
    rw [Option.some.injEq] at hv1
    subst hv1
    linarith
  rw [if_neg hfv]
  rcases cr? with _ | cr
  · exact iff_of_false (fun ⟨p, hp⟩ => Except.noConfusion hp)
      (fun hv => by rcases hv.2.2.1 with ⟨v, hv1, _⟩; exact Option.noConfusion hv1)
  dsimp only
  by_cases hcr : cr < 0 ∨ 1 < cr
  · rw [if_pos hcr]
    refine iff_of_false (fun ⟨p, hp⟩ => Except.noConfusion hp) (fun hv => ?_)
    rcases hv.2.2.1 with ⟨v, hv1, hv2, hv3⟩
    rw [Option.some.injEq] at hv1
    subst hv1
    rcases hcr with hcr | hcr <;> linarith
  rw [if_neg hcr]
  rcases y? with _ | y
  · exact iff_of_false (fun ⟨p, hp⟩ => Except.noConfusion hp)
      (fun hv => by rcases hv.2.2.2.1 with ⟨v, hv1, _⟩; exact Option.noConfusion hv1)
  dsimp only
  by_cases hy : y < 0
  · rw [if_pos hy]
    refine iff_of_false (fun ⟨p, hp⟩ => Except.noConfusion hp) (fun hv => ?_)
    rcases hv.2.2.2.1 with ⟨v, hv1, hv2⟩
    rw [Option.some.injEq] at hv1
    subst hv1
    linarith
  rw [if_neg hy]
  rcases per? with _ | per
  · exact iff_of_false (fun ⟨p, hp⟩ => Except.noConfusion hp)
      (fun hv => by rcases hv.2.2.2.2.1 with ⟨v, hv1, _⟩; exact Option.noConfusion hv1)
  dsimp only
  by_cases hper : per ≤ 0 ∨ 100 < per
  · rw [if_pos hper]
    refine iff_of_false (fun ⟨p, hp⟩ => Except.noConfusion hp) (fun hv => ?_)
    rcases hv.2.2.2.2.1 with ⟨v, hv1, hv2, hv3⟩
    rw [Option.some.injEq] at hv1
    subst hv1
    rcases hper with hper | hper <;> omega
  rw [if_neg hper]
  rcases fr? with _ | fr
  · exact iff_of_false (fun ⟨p, hp⟩ => Except.noConfusion hp)
      (fun hv => by rcases hv.2.2.2.2.2 with ⟨v, hv1, _⟩; exact Option.noConfusion hv1)
  dsimp only
  by_cases hfr : fr ≠ 1 ∧ fr ≠ 2 ∧ fr ≠ 4 ∧ fr ≠ 12
  · rw [if_pos hfr]
    refine iff_of_false (fun ⟨p, hp⟩ => Except.noConfusion hp) (fun hv => ?_)
    rcases hv.2.2.2.2.2 with ⟨v, hv1, hv2⟩
    rw [Option.some.injEq] at hv1
    subst hv1
    rcases hv2 with h | h | h | h
    · exact hfr.1 h
    · exact hfr.2.1 h
    · exact hfr.2.2.1 h
    · exact hfr.2.2.2 h
  rw [if_neg hfr]
  push_neg at hfv hcr hy hper hfr
  refine iff_of_true ⟨⟨fv, cr, y, per, fr⟩, rfl⟩
    ⟨h6, ⟨fv, rfl, hfv⟩, ⟨cr, rfl, hcr.1, hcr.2⟩, ⟨y, rfl, hy⟩,
      ⟨per, rfl, hper.1, hper.2⟩, ⟨fr, rfl, by tauto⟩⟩

/-- Claim C9: the process exits 0 exactly when all five arguments validate, and on
any validation failure (wrong argument count, malformed token or
out-of-range value) it exits non-zero without ever invoking the
calculator. -/
theorem validation_boundary (argc : ℕ) (args : RawArgs) :
    ((main_run argc args).1 = 0 ↔ ArgsValid argc args) ∧
      ((main_run argc args).2 = none ↔ ¬ ArgsValid argc args) := by
  have hiff := parse_ok_iff argc args
  unfold main_run
  cases hp : parse_arguments argc args with
  | error e =>
      rw [hp] at hiff
      have hnv : ¬ ArgsValid argc args := fun hv => by
        rcases hiff.mpr hv with ⟨p, hp2⟩
        exact Except.noConfusion hp2
      exact ⟨iff_of_false (by simp) hnv, iff_of_true rfl hnv⟩
  | ok p =>
      have hv : ArgsValid argc args := hiff.mp ⟨p, hp⟩
      exact ⟨iff_of_true rfl hv, iff_of_false (fun h => Option.noConfusion h)
        (fun hn => hn hv)⟩
